import Mathlib

/-!
Shallow embedding of the practice functions in `src/probles.ts` and proofs
of the specified properties.  TypeScript numbers are modelled as `Int`
(all reference scenarios are integral), strings as Lean `String`
(length = count of code units for the BMP strings involved), arrays as
`List`, `null`/absent as `Option`, and the single asynchronous operation
as an explicit description of the settled promise.
-/

namespace TSProblems

/-- The element shape `{ title: string; rating: number }` used by
Problem 2 `filterByRating`. -/
structure RatedItem where
  title : String
  rating : Int
deriving DecidableEq, Repr

/-- Problem 2 `filterByRating`:
`items.filter((item) => item.rating >= 4)`. -/
def filterByRating (items : List RatedItem) : List RatedItem :=
  items.filter (fun item => item.rating ≥ 4)

/-- Problem 3 `concatenateArrays<T>(...arrays: T[][]): T[]`, that is
`arrays.flat()`: the variadic argument list is modelled as a `List` of
the argument sequences, and `.flat()` (one level) as `List.join`. -/
def concatenateArrays {T : Type} (arrays : List (List T)) : List T :=
  arrays.flatten

/-- Problem 4 class `Vehicle` with private fields `make` and `year`,
set once by the constructor. -/
structure Vehicle where
  make : String
  year : Int
deriving DecidableEq, Repr

/-- `Vehicle.getInfo()`: the template literal
`Make: ${this.make}, Year: ${this.year}`. -/
def Vehicle.getInfo (v : Vehicle) : String :=
  "Make: " ++ v.make ++ ", Year: " ++ toString v.year

/-- Problem 4 class `Car extends Vehicle`, adding the private field
`model`; its constructor calls `super(make, year)` and stores `model`.
`Car` declares no `getInfo` of its own: it inherits `Vehicle`'s, which
reads only the inherited `make`/`year` state (the `toVehicle` part). -/
structure Car extends Vehicle where
  model : String
deriving DecidableEq, Repr

/-- `Car.getModel()`: the template literal `Model: ${this.model}`. -/
def Car.getModel (c : Car) : String :=
  "Model: " ++ c.model

/-- A JavaScript runtime value reaching Problem 5 `processValue`.  The
static parameter type is `string | number`; the `boolean` constructor
extends the domain with one representative runtime value that is
neither, so that the behaviour of the untyped JavaScript body on an
out-of-domain value can be stated. -/
inductive JSVal where
  | str (s : String)
  | num (n : Int)
  | boolean (b : Bool)
deriving DecidableEq, Repr

/-- Problem 5 `processValue`:
`typeof value === "string" ? value.length : value * 2`.
Only `str` satisfies the `typeof` test, so every other value is routed
to the numeric branch; there JavaScript's `*` applies `ToNumber`
coercion, which sends `true` to `1` and `false` to `0`.  The body
contains no `throw`, so the result type is plain `Int`. -/
def processValue (value : JSVal) : Int :=
  match value with
  | .str s => (s.length : Int)
  | .num n => n * 2
  | .boolean b => (if b then 1 else 0) * 2

/-- Follows the spec's words, for comparison with `processValue`: the
spec's §4.5/§7 behaviour in which a value that is neither text nor
numeric fails with a `TypeMismatch` error instead of being coerced. -/
def processValueSpecified (value : JSVal) : Except String Int :=
  match value with
  | .str s => Except.ok (s.length : Int)
  | .num n => Except.ok (n * 2)
  | .boolean _ => Except.error "TypeMismatch"

/-- Problem 6 `interface Product { name: string; price: number }`. -/
structure Product where
  name : String
  price : Int
deriving DecidableEq, Repr

/-- The reducer `(max, item) => (item.price > max.price ? item : max)`
of Problem 6. -/
def maxStep (max item : Product) : Product :=
  if item.price > max.price then item else max

/-- Problem 6 `getMostExpensiveProduct`: returns `null` (here `none`)
for the empty array, otherwise `products.reduce(maxStep)` — a reduce
without initial value, i.e. a left fold of the tail starting from the
first element. -/
def getMostExpensiveProduct (products : List Product) : Option Product :=
  match products with
  | [] => none
  | p :: ps => some (ps.foldl maxStep p)

/-- Problem 7 `enum Day` with its seven members. -/
inductive Day where
  | Monday
  | Tuesday
  | Wednesday
  | Thursday
  | Friday
  | Saturday
  | Sunday
deriving DecidableEq, Repr

/-- Problem 7 `getDayType`:
`day === Day.Saturday || day === Day.Sunday ? "Weekend" : "Weekday"`. -/
def getDayType (day : Day) : String :=
  if day = Day.Saturday ∨ day = Day.Sunday then "Weekend" else "Weekday"

/-- Outcome of calling the `async` function of Problem 8, from the
caller's point of view.  `thrown` would be a synchronous exception
escaping the call; `rejected` is a returned promise already settled
rejected, with no timer ever scheduled; `fulfilledAfter d v` is a
returned promise that fulfils with `v` after a timer of `d` time
units. -/
inductive AsyncResult (α : Type) where
  | thrown (msg : String)
  | rejected (msg : String)
  | fulfilledAfter (delay : Nat) (value : α)
deriving DecidableEq, Repr

/-- Problem 8 `squareAsync(n)`.  The body first tests `n < 0` and
`throw`s `Error("Negative number not allowed")`; since the function is
declared `async`, JavaScript converts that throw — which happens before
any `setTimeout` is reached — into a rejection of the returned promise,
never into a synchronous exception at the call site.  Otherwise the
body returns a promise that `setTimeout`-resolves with `n * n` after
`1000` time units. -/
def squareAsync (n : Int) : AsyncResult Int :=
  if n < 0 then
    AsyncResult.rejected "Negative number not allowed"
  else
    AsyncResult.fulfilledAfter 1000 (n * n)

/-- Claim C1: for every number `n < 0`, `squareAsync n` fails immediately
with the negative-input error before any delay is scheduled, and the
failure reaches the caller as a rejected asynchronous result (the
`rejected` promise state), not as a synchronously thrown exception
(the `thrown` alternative). -/
theorem squareAsync_neg_rejects (n : Int) (h : n < 0) :
    squareAsync n = AsyncResult.rejected "Negative number not allowed" := by
  simp [squareAsync, h]

theorem squareAsync_neg_rejects_witness :
    squareAsync (-1) = AsyncResult.rejected "Negative number not allowed" :=
  squareAsync_neg_rejects (-1) (by decide)

/-- Claim C2: for every number `n ≥ 0`, `squareAsync n` resolves with
`n * n` after the fixed 1000-unit delay; in particular it never rejects
for non-negative input. -/
theorem squareAsync_nonneg_fulfils (n : Int) (h : 0 ≤ n) :
    squareAsync n = AsyncResult.fulfilledAfter 1000 (n * n) := by
  simp [squareAsync, not_lt.mpr h]

theorem squareAsync_nonneg_fulfils_witness :
    squareAsync 5 = AsyncResult.fulfilledAfter 1000 25 := by
  simpa using squareAsync_nonneg_fulfils 5 (by decide)

/-- Claim C3: `processValue` returns the length of a text value and
twice a numeric value; in particular `processValue "hello" = 5` and
`processValue 10 = 20`. -/
theorem processValue_spec :
    (∀ s : String, processValue (JSVal.str s) = (s.length : Int)) ∧
    (∀ n : Int, processValue (JSVal.num n) = n * 2) ∧
    processValue (JSVal.str "hello") = 5 ∧
    processValue (JSVal.num 10) = 20 :=
  ⟨fun _ => rfl, fun _ => rfl, rfl, rfl⟩

/-- Claim C4, counterexample: the claim as stated fails on the code.
At the concrete input `true` — a runtime value that is neither text nor
numeric — `processValue` does not fail with a `TypeMismatch` error: it
silently coerces the value and returns the number `2`, whereas the
behaviour the claim describes (`processValueSpecified`, following the
spec's words) is the `TypeMismatch` error. -/
theorem processValue_boolean_coerces :
    processValue (JSVal.boolean true) = 2 ∧
    processValueSpecified (JSVal.boolean true) = Except.error "TypeMismatch" :=
  ⟨rfl, rfl⟩

/-- Claim C4 (amended): given a runtime value that is neither text nor
numeric (a boolean in this model), `processValue` does not fail with a
`TypeMismatch` error; its `typeof` test routes the value to the numeric
branch, which silently coerces it (`ToNumber`) and returns a number —
exactly where the spec-following behaviour would be the `TypeMismatch`
error. -/
theorem processValue_out_of_domain_coerces :
    ∀ b : Bool,
      processValueSpecified (JSVal.boolean b) = Except.error "TypeMismatch" ∧
      processValue (JSVal.boolean b) = 2 * (if b then 1 else 0) := by
  intro b
  cases b <;> exact ⟨rfl, rfl⟩

/-- Claim C6: `filterByRating S` is a subsequence of `S` (so its
elements appear in their original relative order), each of its elements
has `rating ≥ 4`, every element of `S` with `rating ≥ 4` is kept, and
the empty sequence maps to the empty sequence. -/
theorem filterByRating_spec (S : List RatedItem) :
    (filterByRating S).Sublist S ∧
    (∀ x ∈ filterByRating S, x.rating ≥ 4) ∧
    (∀ x ∈ S, x.rating ≥ 4 → x ∈ filterByRating S) ∧
    filterByRating ([] : List RatedItem) = [] := by
  refine ⟨List.filter_sublist S, ?_, ?_, rfl⟩
  · intro x hx
    have hmem := List.mem_filter.mp hx
    simpa using hmem.2
  · intro x hx hr
    exact List.mem_filter.mpr ⟨hx, by simpa using hr⟩

theorem filterByRating_spec_witness :
    RatedItem.mk "a" 5 ∈ filterByRating [RatedItem.mk "a" 5, RatedItem.mk "b" 2] :=
  (filterByRating_spec [RatedItem.mk "a" 5, RatedItem.mk "b" 2]).2.2.1
    (RatedItem.mk "a" 5) (by simp) (by decide)

/-- Claim C7: `concatenateArrays` of zero sequences is empty, and on a
cons it prepends the first sequence unchanged to the flattening of the
rest — a one-level flatten preserving argument order and each inner
sequence's order.  The last conjunct shows there is no deeper recursive
flattening: inner-inner lists survive as elements. -/
theorem concatenateArrays_spec :
    (∀ (T : Type), concatenateArrays ([] : List (List T)) = []) ∧
    (∀ (T : Type) (xs : List T) (xss : List (List T)),
      concatenateArrays (xs :: xss) = xs ++ concatenateArrays xss) ∧
    concatenateArrays [[1, 2], [3], [4, 5]] = [1, 2, 3, 4, 5] ∧
    concatenateArrays [[[1], [2]], [[3]]] = [[1], [2], [3]] := by
  refine ⟨fun _ => rfl, fun T xs xss => ?_, rfl, rfl⟩
  simp [concatenateArrays]

/-- Claim C8: `getDayType` is total on the seven `Day` values — it
always returns one of the two strings — giving `"Weekend"` exactly on
`Saturday` and `Sunday` and `"Weekday"` on the other five days. -/
theorem getDayType_spec (day : Day) :
    (getDayType day = "Weekend" ∨ getDayType day = "Weekday") ∧
    ((day = Day.Saturday ∨ day = Day.Sunday) → getDayType day = "Weekend") ∧
    (day ≠ Day.Saturday → day ≠ Day.Sunday → getDayType day = "Weekday") := by
  cases day <;> simp [getDayType]

theorem getDayType_spec_witness :
    getDayType Day.Saturday = "Weekend" ∧ getDayType Day.Monday = "Weekday" :=
  ⟨(getDayType_spec Day.Saturday).2.1 (Or.inl rfl),
   (getDayType_spec Day.Monday).2.2 (by decide) (by decide)⟩

/-- Claim C9: a `Car` built from `(make, year, model)` answers `getInfo`
through the inherited `Vehicle` method, yielding
`"Make: {make}, Year: {year}"`, and its own `getModel` yields
`"Model: {model}"`; in particular the `("Toyota", 2020, "Corolla")`
car gives `"Make: Toyota, Year: 2020"` and `"Model: Corolla"`. -/
theorem car_inherits_getInfo (make model : String) (year : Int) :
    (Car.mk (Vehicle.mk make year) model).toVehicle.getInfo
        = Vehicle.getInfo (Vehicle.mk make year) ∧
    (Car.mk (Vehicle.mk make year) model).toVehicle.getInfo
        = "Make: " ++ make ++ ", Year: " ++ toString year ∧
    (Car.mk (Vehicle.mk make year) model).getModel = "Model: " ++ model ∧
    (Car.mk (Vehicle.mk "Toyota" 2020) "Corolla").toVehicle.getInfo
        = "Make: Toyota, Year: 2020" ∧
    (Car.mk (Vehicle.mk "Toyota" 2020) "Corolla").getModel = "Model: Corolla" :=
  ⟨rfl, rfl, rfl, rfl, rfl⟩

/-- A left fold of `maxStep` returns either its start accumulator (when
no element strictly beats it, as `maxStep` replaces only on strict `>`)
or the first element of the list that is strictly greater than the
accumulator and than every element before it, and at least as great as
every element of the list. -/
theorem foldl_maxStep_spec (ps : List Product) (acc : Product) :
    (ps.foldl maxStep acc = acc ∧ ∀ y ∈ ps, y.price ≤ acc.price) ∨
    (∃ i : Fin ps.length,
      ps.foldl maxStep acc = ps.get i ∧
      acc.price < (ps.get i).price ∧
      (∀ y ∈ ps, y.price ≤ (ps.get i).price) ∧
      (∀ j : Fin ps.length, j.val < i.val → (ps.get j).price < (ps.get i).price)) := by
  induction ps generalizing acc with
  | nil => exact Or.inl ⟨rfl, by simp⟩
  | cons p ps ih =>
    have hfold : (p :: ps).foldl maxStep acc = ps.foldl maxStep (maxStep acc p) := rfl
    by_cases hp : p.price > acc.price
    · have hstep : maxStep acc p = p := by simp [maxStep, hp]
      rcases ih p with ⟨heq, hall⟩ | ⟨i, heq, hacc, hall, hfirst⟩
      · refine Or.inr ⟨⟨0, Nat.succ_pos _⟩, ?_, hp, ?_, ?_⟩
        · rw [hfold, hstep, heq]
          rfl
        · intro y hy
          rcases List.mem_cons.mp hy with h | h
          · exact le_of_eq (congrArg Product.price h)
          · exact hall y h
        · intro j hj
          exact absurd hj (Nat.not_lt_zero _)
      · refine Or.inr ⟨⟨i.val + 1, Nat.succ_lt_succ i.isLt⟩, ?_, ?_, ?_, ?_⟩
        · rw [hfold, hstep, heq]
          rfl
        · exact lt_trans hp hacc
        · intro y hy
          rcases List.mem_cons.mp hy with h | h
          · subst h
            exact le_of_lt hacc
          · exact hall y h
        · intro j hj
          rcases j with ⟨jv, hjv⟩
          cases jv with
          | zero => exact hacc
          | succ k =>
            exact hfirst ⟨k, Nat.lt_of_succ_lt_succ hjv⟩ (Nat.lt_of_succ_lt_succ hj)
    · have hstep : maxStep acc p = acc := by simp [maxStep, hp]
      have hple : p.price ≤ acc.price := not_lt.mp hp
      rcases ih acc with ⟨heq, hall⟩ | ⟨i, heq, hacc, hall, hfirst⟩
      · refine Or.inl ⟨by rw [hfold, hstep, heq], ?_⟩
        intro y hy
        rcases List.mem_cons.mp hy with h | h
        · subst h
          exact hple
        · exact hall y h
      · refine Or.inr ⟨⟨i.val + 1, Nat.succ_lt_succ i.isLt⟩, ?_, hacc, ?_, ?_⟩
        · rw [hfold, hstep, heq]
          rfl
        · intro y hy
          rcases List.mem_cons.mp hy with h | h
          · subst h
            exact le_of_lt (lt_of_le_of_lt hple hacc)
          · exact hall y h
        · intro j hj
          rcases j with ⟨jv, hjv⟩
          cases jv with
          | zero => exact lt_of_le_of_lt hple hacc
          | succ k =>
            exact hfirst ⟨k, Nat.lt_of_succ_lt_succ hjv⟩ (Nat.lt_of_succ_lt_succ hj)

/-- Claim C5: `getMostExpensiveProduct` returns `none` (absent, not an
error) on the empty sequence, returns an element on every non-empty
sequence, and the returned product sits at a position whose price is at
least every price in the list while every earlier position has a
strictly smaller price — so on ties the first maximal element wins,
because the running maximum is replaced only on strict `>`. -/
theorem getMostExpensiveProduct_spec :
    getMostExpensiveProduct [] = none ∧
    (∀ l : List Product, l ≠ [] → (getMostExpensiveProduct l).isSome = true) ∧
    (∀ (l : List Product) (p : Product), getMostExpensiveProduct l = some p →
      ∃ i : Fin l.length, l.get i = p ∧
        (∀ y ∈ l, y.price ≤ p.price) ∧
        (∀ j : Fin l.length, j.val < i.val → (l.get j).price < p.price)) := by
  refine ⟨rfl, ?_, ?_⟩
  · intro l hl
    cases l with
    | nil => exact absurd rfl hl
    | cons a as => rfl
  · intro l p hp
    cases l with
    | nil => cases hp
    | cons a as =>
      have hp' : as.foldl maxStep a = p := by
        simpa [getMostExpensiveProduct] using hp
      rcases foldl_maxStep_spec as a with ⟨heq, hall⟩ | ⟨i, heq, hacc, hall, hfirst⟩
      · have hpa : a = p := by rw [← hp', heq]
        subst hpa
        refine ⟨⟨0, Nat.succ_pos _⟩, rfl, ?_, ?_⟩
        · intro y hy
          rcases List.mem_cons.mp hy with h | h
          · exact le_of_eq (congrArg Product.price h)
          · exact hall y h
        · intro j hj
          exact absurd hj (Nat.not_lt_zero _)
      · have hpi : as.get i = p := by rw [← hp', heq]
        subst hpi
        refine ⟨⟨i.val + 1, Nat.succ_lt_succ i.isLt⟩, rfl, ?_, ?_⟩
        · intro y hy
          rcases List.mem_cons.mp hy with h | h
          · subst h
            exact le_of_lt hacc
          · exact hall y h
        · intro j hj
          rcases j with ⟨jv, hjv⟩
          cases jv with
          | zero => exact hacc
          | succ k =>
            exact hfirst ⟨k, Nat.lt_of_succ_lt_succ hjv⟩ (Nat.lt_of_succ_lt_succ hj)

theorem getMostExpensiveProduct_spec_witness :
    ∃ i : Fin ([Product.mk "A" 10, Product.mk "B" 10].length),
      [Product.mk "A" 10, Product.mk "B" 10].get i = Product.mk "A" 10 ∧
      (∀ y ∈ [Product.mk "A" 10, Product.mk "B" 10],
        y.price ≤ (Product.mk "A" 10).price) ∧
      (∀ j : Fin ([Product.mk "A" 10, Product.mk "B" 10].length),
        j.val < i.val →
          ([Product.mk "A" 10, Product.mk "B" 10].get j).price
            < (Product.mk "A" 10).price) :=
  getMostExpensiveProduct_spec.2.2 [Product.mk "A" 10, Product.mk "B" 10]
    (Product.mk "A" 10) rfl

/-- Claim C10: on every non-empty sequence (equivalently whenever it
returns an element), the product returned by `getMostExpensiveProduct`
is an element of the input and its price is greater than or equal to
the price of every element of the input. -/
theorem getMostExpensiveProduct_mem_and_max (l : List Product) (p : Product)
    (h : getMostExpensiveProduct l = some p) :
    p ∈ l ∧ ∀ y ∈ l, y.price ≤ p.price := by
  cases l with
  | nil => cases h
  | cons a as =>
    have h' : as.foldl maxStep a = p := by
      simpa [getMostExpensiveProduct] using h
    rcases foldl_maxStep_spec as a with ⟨heq, hall⟩ | ⟨i, heq, hacc, hall, hfirst⟩
    · have hpa : a = p := by rw [← h', heq]
      subst hpa
      refine ⟨List.mem_cons_self _ _, ?_⟩
      intro y hy
      rcases List.mem_cons.mp hy with h | h
      · exact le_of_eq (congrArg Product.price h)
      · exact hall y h
    · have hpi : as.get i = p := by rw [← h', heq]
      subst hpi
      refine ⟨List.mem_cons_of_mem a (List.get_mem as i.val i.isLt), ?_⟩
      intro y hy
      rcases List.mem_cons.mp hy with h | h
      · subst h
        exact le_of_lt hacc
      · exact hall y h

theorem getMostExpensiveProduct_mem_and_max_witness :
    Product.mk "y" 5 ∈ [Product.mk "x" 1, Product.mk "y" 5] ∧
    ∀ z ∈ [Product.mk "x" 1, Product.mk "y" 5],
      z.price ≤ (Product.mk "y" 5).price :=
  getMostExpensiveProduct_mem_and_max [Product.mk "x" 1, Product.mk "y" 5]
    (Product.mk "y" 5) rfl

end TSProblems
